import Mathlib

/-!
Verification of the yggdrasil / cis_interface message-routing core.

Part 1 embeds the typed message codec of
`src/cis_interface/datatypes/CisBaseType.py` (class `CisBaseType`).
Python dictionaries holding metadata / type definitions are embedded as
association lists of `String × PropVal` pairs; Python `bytes` values are
embedded as `List Char` (the payloads and the separator in the source are
ASCII byte strings); exceptions are embedded as an `Except` error kind.
-/

set_option autoImplicit false

namespace CisBaseType

/-- Values stored in a metadata / typedef dictionary (the subset of JSON
scalars the codec claims exercise). -/
inductive PropVal where
  | vstr (s : String)
  | vnat (n : Nat)
  | vbool (b : Bool)
deriving DecidableEq

/-- A Python dict of metadata entries, embedded as an association list that
keeps insertion order (as Python dicts do). -/
def Meta : Type := List (String × PropVal)

instance : DecidableEq Meta := by
  unfold Meta
  infer_instance

deriving instance DecidableEq for Except

/-- Python exception kinds raised by the codec code: `ValueError`,
`TypeError`, and `CisTypeError` (which subclasses `TypeError` in the
source). -/
inductive Err where
  | valueError
  | typeError
  | cisTypeError
deriving DecidableEq

/-- `d.get(key)`: first value bound to `key`, if any. -/
def metaGet : Meta → String → Option PropVal
  | [], _ => none
  | (k, v) :: rest, key => if k = key then some v else metaGet rest key

/-- `d[key] = v`: replace the value bound to `key` in place, or append the
binding when the key is absent (Python dict assignment keeps insertion
order). -/
def metaSet : Meta → String → PropVal → Meta
  | [], key, v => [(key, v)]
  | (k, w) :: rest, key, v =>
    if k = key then (k, v) :: rest else (k, w) :: metaSet rest key v

/-- `d.update(kw)`: assign every entry of `kw` into `d`. -/
def metaUpdate (m kw : Meta) : Meta :=
  kw.foldl (fun acc kv => metaSet acc kv.1 kv.2) m

/-- The abstract codec interface of `CisBaseType`.  The four methods that
the source leaves to subclasses (`encode_type`, `encode_data`,
`decode_data`, `transform_type`) are fields, as are the two `jsonschema`
validations (the `jsonschema` library is an external collaborator) and the
overridable per-key compatibility predicate `check_meta_compat` (whose
default is exact equality of `metadata.get(k)` with the typedef value).
`encode_type` returns `none` where the source raises `CisTypeError`.
`json_loads` models the external `json.loads` used by `deserialize`,
returning `none` where the library raises. -/
structure Codec (Obj : Type) where
  name : String
  empty_msg : Obj
  encode_type : Obj → Option Meta
  encode_data : Obj → Meta → List Char
  decode_data : List Char → Meta → Obj
  transform_type : Obj → Option Meta → Obj
  validate_metadata : Meta → Bool
  validate_definition : Meta → Bool
  check_meta_compat : String → Option PropVal → PropVal → Bool
  json_loads : List Char → Option Meta

variable {Obj : Type}

/-- `CisBaseType.check_encoded` (source lines 228-260): validate the
metadata, then (when a typedef is supplied) validate the typedef and check
every typedef entry for compatibility with the metadata. -/
def check_encoded (c : Codec Obj) (metadata : Meta) (typedef : Option Meta) : Bool :=
  if ¬ c.validate_metadata metadata then false
  else
    match typedef with
    | none => true
    | some td =>
      if ¬ c.validate_definition td then false
      else td.all fun kv => c.check_meta_compat kv.1 (metaGet metadata kv.1) kv.2

/-- `CisBaseType.check_decoded` (source lines 262-281): encode the object's
type (a `CisTypeError` yields `false`), force `typename` to the class name,
and defer to `check_encoded`. -/
def check_decoded (c : Codec Obj) (obj : Obj) (typedef : Option Meta) : Bool :=
  match c.encode_type obj with
  | none => false
  | some datadef => check_encoded c (metaSet datadef "typename" (PropVal.vstr c.name)) typedef

/-- `CisBaseType.encode` (source lines 283-317).  The source's final
`isinstance(data, bytes)` check always succeeds in this embedding because
`encode_data` produces bytes by type. -/
def encode (c : Codec Obj) (obj : Obj) (typedef : Option Meta) :
    Except Err (Meta × List Char) :=
  if ¬ check_decoded c obj typedef then .error .valueError
  else
    let obj_t := c.transform_type obj typedef
    match c.encode_type obj_t with
    | none => .error .cisTypeError
    | some md =>
      let metadata := metaSet md "typename" (PropVal.vstr c.name)
      let data := c.encode_data obj_t metadata
      if ¬ check_encoded c metadata typedef then .error .valueError
      else .ok (metadata, data)

/-- `CisBaseType.decode` (source lines 319-344). -/
def decode (c : Codec Obj) (metadata : Meta) (data : List Char) (typedef : Option Meta) :
    Except Err Obj :=
  if ¬ check_encoded c metadata typedef then .error .valueError
  else
    let out := c.decode_data data metadata
    if ¬ check_decoded c out typedef then .error .valueError
    else .ok (c.transform_type out typedef)

end CisBaseType

namespace CisBaseType

/-! ### The wire envelope: header JSON, separator, payload -/

/-- `CisBaseType.sep` (source line 44): the fixed separator byte string
`b':CIS_TAG:'`. -/
def sep : List Char := String.toList ":CIS_TAG:"

/-- Hexadecimal digit character, lowercase, as produced by Python's JSON
encoder. -/
def hexDigit (n : Nat) : Char :=
  Char.ofNat (if n < 10 then 48 + n else 87 + n)

/-- Four-digit hexadecimal rendering used by JSON `\uXXXX` escapes. -/
def toHex4 (n : Nat) : List Char :=
  [hexDigit (n / 4096 % 16), hexDigit (n / 256 % 16), hexDigit (n / 16 % 16), hexDigit (n % 16)]

/-- One character of a JSON string, escaped the way Python
`json.dumps` (with its default `ensure_ascii=True`) escapes it: quote,
backslash and the short control escapes specially, every other character
outside printable ASCII as `\uXXXX` (with surrogate pairs beyond the basic
plane). -/
def escChar (c : Char) : List Char :=
  if c = '\"' then ['\\', '\"']
  else if c = '\\' then ['\\', '\\']
  else if c = Char.ofNat 10 then ['\\', 'n']
  else if c = Char.ofNat 13 then ['\\', 'r']
  else if c = Char.ofNat 9 then ['\\', 't']
  else if c = Char.ofNat 8 then ['\\', 'b']
  else if c = Char.ofNat 12 then ['\\', 'f']
  else if c.toNat < 32 ∨ c.toNat ≥ 127 then
    if c.toNat < 65536 then '\\' :: 'u' :: toHex4 c.toNat
    else
      let m := c.toNat - 65536
      ('\\' :: 'u' :: toHex4 (55296 + m / 1024)) ++ ('\\' :: 'u' :: toHex4 (56320 + m % 1024))
  else [c]

/-- Escape every character of a string body. -/
def escString : List Char → List Char
  | [] => []
  | c :: rest => escChar c ++ escString rest

/-- A JSON string literal: quote, escaped body, quote. -/
def jsonQuote (s : String) : List Char :=
  '\"' :: escString s.toList ++ ['\"']

/-- JSON rendering of one metadata value. -/
def dumpVal : PropVal → List Char
  | .vstr s => jsonQuote s
  | .vnat n => Nat.toDigits 10 n
  | .vbool b => if b then String.toList "true" else String.toList "false"

/-- One `"key": value` entry, with Python's default `': '` separator. -/
def dumpEntry (kv : String × PropVal) : List Char :=
  jsonQuote kv.1 ++ (':' :: ' ' :: dumpVal kv.2)

/-- Lexicographic code-point comparison of byte strings, as Python string
comparison orders the sorted keys. -/
def charListLt : List Char → List Char → Bool
  | [], [] => false
  | [], _ :: _ => true
  | _ :: _, [] => false
  | a :: as, b :: bs =>
    if a.toNat < b.toNat then true
    else if b.toNat < a.toNat then false
    else charListLt as bs

/-- String comparison on the underlying characters. -/
def strLt (a b : String) : Bool := charListLt a.toList b.toList

/-- Insert one entry into a key-sorted list of entries. -/
def insertEntry (p : String × PropVal) : Meta → Meta
  | [] => [p]
  | q :: rest => if strLt q.1 p.1 then q :: insertEntry p rest else p :: q :: rest

/-- Sort entries by key, modelling `json.dumps(..., sort_keys=True)`. -/
def sortKeys : Meta → Meta
  | [] => []
  | p :: rest => insertEntry p (sortKeys rest)

/-- `json.dumps(metadata, sort_keys=True)` for a flat metadata dict, with
Python's default item separator `', '`: an object literal whose entries are
key-sorted. -/
def jsonDumps (m : Meta) : List Char :=
  Char.ofNat 123 :: List.intercalate [',', ' '] ((sortKeys m).map dumpEntry) ++ [Char.ofNat 125]

/-- Whether `s` occurs at the very start of the second list. -/
def leadsWith : List Char → List Char → Bool
  | [], _ => true
  | _ :: _, [] => false
  | a :: as, b :: bs => if a = b then leadsWith as bs else false

/-- Split a byte string at the first occurrence of `sp`, as Python's
`msg.split(sp, 1)` does after the `sp in msg` membership test: `none` when
`sp` does not occur. -/
def splitFirst (sp : List Char) : List Char → Option (List Char × List Char)
  | [] => if sp.isEmpty then some ([], []) else none
  | c :: rest =>
    if leadsWith sp (c :: rest) then some ([], (c :: rest).drop sp.length)
    else (splitFirst sp rest).map fun pr => (c :: pr.1, pr.2)

/-- The argument of `CisBaseType.deserialize`, which checks at run time
that it received a bytes object: any non-bytes Python value is embedded as
`notBytes`. -/
inductive PyMsg where
  | bytes (b : List Char)
  | notBytes

/-- `CisBaseType.serialize` (source lines 346-361): encode the object under
the instance typedef, update the metadata with the caller's keyword
entries, and emit header JSON, separator, and payload. -/
def serialize {Obj : Type} (c : Codec Obj) (typedef : Meta) (kwargs : Meta) (obj : Obj) :
    Except Err (List Char) :=
  match encode c obj (some typedef) with
  | .error e => .error e
  | .ok (metadata, data) =>
    .ok (jsonDumps (metaUpdate metadata kwargs) ++ sep ++ data)

/-- `CisBaseType.deserialize` (source lines 363-388): non-bytes input
raises `TypeError`; empty input yields the empty sentinel with an empty
header; input without the separator raises `ValueError`; otherwise split at
the first separator, parse the header (a `json.loads` failure is a
`ValueError`, since `json.JSONDecodeError` subclasses it) and decode under
the instance typedef. -/
def deserialize {Obj : Type} (c : Codec Obj) (typedef : Meta) : PyMsg → Except Err (Obj × Meta)
  | .notBytes => .error .typeError
  | .bytes msg =>
    if msg.isEmpty then .ok (c.empty_msg, ([] : Meta))
    else
      match splitFirst sep msg with
      | none => .error .valueError
      | some (mdBytes, data) =>
        match c.json_loads mdBytes with
        | none => .error .valueError
        | some metadata =>
          match decode c metadata data (some typedef) with
          | .error e => .error e
          | .ok obj => .ok (obj, metadata)

/-- Last element of a byte string, if any. -/
def lastOpt : List Char → Option Char
  | [] => none
  | [a] => some a
  | _ :: b :: rest => lastOpt (b :: rest)

/-- A concrete codec over natural numbers used to instantiate the generic
codec theorems: its data encoding is a unary byte string, inverted by
taking the length, and its schemas require `typename = "nat"`. -/
def natCodec : Codec Nat where
  name := "nat"
  empty_msg := 0
  encode_type := fun _ => some [("typename", PropVal.vstr "nat")]
  encode_data := fun n _ => List.replicate n 'x'
  decode_data := fun s _ => s.length
  transform_type := fun n _ => n
  validate_metadata := fun m => decide (metaGet m "typename" = some (PropVal.vstr "nat"))
  validate_definition := fun m => decide (metaGet m "typename" = some (PropVal.vstr "nat"))
  check_meta_compat := fun _ v1 v2 => decide (v1 = some v2)
  json_loads := fun _ => none

/-- A typedef accepted by `natCodec`. -/
def dnat : Meta := [("typename", PropVal.vstr "nat")]

/-- A typedef `natCodec` objects fail `check_decoded` against. -/
def dbad : Meta := [("typename", PropVal.vstr "int")]

/-- Serialization keyword entries whose value contains the separator
token. -/
def kwTag : Meta := [("model", PropVal.vstr ":CIS_TAG:")]

/-- The serialized header produced for `kwTag`. -/
def hdrTag : List Char := jsonDumps (metaUpdate dnat kwTag)

end CisBaseType

namespace RPCRequestDriver

/-!
Part 2 embeds the client-side RPC request driver of
`src/yggdrasil/drivers/RPCRequestDriver.py` (class `RPCRequestDriver`).
The driver's observable actions (messages handed to the output comm,
construction and start of response drivers) are recorded as an event
trace.  The base class `ConnectionDriver`, the class `RPCResponseDriver`
and the comm layer `CommBase` belong to this repository but are not under
`src/`; the few of their behaviours the claims need are modelled from the
spec, each marked below.
-/

/-- `CommMessage` flags (`CommBase.FLAG_SUCCESS` / `FLAG_EOF` /
`FLAG_EMPTY` / `FLAG_FAILURE`). -/
inductive Flag where
  | success
  | eof
  | empty
  | failure
deriving DecidableEq

/-- The header fields of an incoming request message that
`RPCRequestDriver.send_message` and `on_eof` read
(`msg.header['response_address']`, `msg.header['request_id']`,
`msg.header['commtype']`, `msg.header.get('model', '')`).  The first three
are only read on non-EOF messages. -/
structure CommMessage where
  flag : Flag
  response_address : String
  request_id : String
  commtype : String
  model : Option String
deriving DecidableEq

/-- Payloads handed to the base pump's send, as they appear on the shared
request channel. -/
inductive Sent where
  /-- A request tagged with `response_address`, `request_id` and `model`
  header fields. -/
  | taggedRequest (response_address request_id model : String)
  /-- The reserved `YGG_CLIENT_EOF` client sign-off sentinel, tagged with
  the signing-off model's name. -/
  | clientEnd (model : String)
  /-- A downstream EOF. -/
  | eofSignal
deriving DecidableEq

/-- Observable actions of the request driver. -/
inductive Event where
  /-- An `RPCResponseDriver` bound to the pair was constructed (and
  appended to `response_drivers`). -/
  | constructed (response_address request_id : String)
  /-- `start()` of that response driver returned without raising. -/
  | started (response_address request_id : String)
  /-- A message was handed to the base pump's send and left on the output
  comm. -/
  | transmitted (s : Sent)
deriving DecidableEq

/-- One tracked response driver, as `prune_response_drivers` sees it:
its key, whether its thread `is_alive()`, and the two comm confirmation
flags. -/
structure RespDriver where
  response_address : String
  request_id : String
  running : Bool
  icomm_confirmed_recv : Bool
  ocomm_confirmed_send : Bool
deriving DecidableEq

/-- Registry direction (`models['input']` / `models['output']`). -/
inductive Direction where
  | input
  | output
deriving DecidableEq

/-- Driver state touched by the embedded methods.  `models_input` /
`models_output` are the per-direction registries of signed-on producer
names (Python sets).  `eof_sent` belongs to the modelled comm layer: it
records that the output comm has already sent its EOF. -/
structure RPCState where
  models_input : Finset String
  models_output : Finset String
  response_drivers : List RespDriver
  block_response : Bool
  comm_open : Bool
  ocomm_closed : Bool
  eof_sent : Bool
deriving DecidableEq

/-- Registry of a direction. -/
def registry (st : RPCState) : Direction → Finset String
  | .input => st.models_input
  | .output => st.models_output

/-- Modelled from the spec: `ConnectionDriver.send_message` together with
the output comm's send (`ConnectionDriver` and `CommBase` are not under
`src/`).  The base pump forwards one message, with its rewritten header,
to the output comm; a closed output comm refuses the send; the output
comm sends EOF at most once (spec: downstream EOF is emitted exactly
once), refusing a second EOF send. -/
def base_send_message (st : RPCState) (s : Sent) : Bool × RPCState × List Event :=
  if st.ocomm_closed then (false, st, [])
  else
    match s with
    | .eofSignal =>
      if st.eof_sent then (false, st, [])
      else (true, { st with eof_sent := true }, [Event.transmitted Sent.eofSignal])
    | _ => (true, st, [Event.transmitted s])

/-- Modelled from the spec: `ConnectionDriver.remove_model` (not under
`src/`): idempotently remove the name from that direction's registry and
return whether the registry is now empty. -/
def base_remove_model (st : RPCState) (d : Direction) (name : String) : Bool × RPCState :=
  match d with
  | .input =>
    let m := st.models_input.erase name
    (decide (m = ∅), { st with models_input := m })
  | .output =>
    let m := st.models_output.erase name
    (decide (m = ∅), { st with models_output := m })

/-- Modelled from the spec: `RPCResponseDriver.__init__` (not under
`src/`): a single-shot response driver bound at construction to the
`(response_address, request_id)` pair; its thread is not alive until
`start()` succeeds, and its fresh comms have no unconfirmed message. -/
def mkResponseDriver (response_address request_id : String) : RespDriver :=
  { response_address := response_address
    request_id := request_id
    running := false
    icomm_confirmed_recv := true
    ocomm_confirmed_send := true }

/-- `RPCRequestDriver.send_message` (source lines 159-202).  `constructOk`
and `startOk` model whether `RPCResponseDriver(...)` and
`response_driver.start()` raise; the `try`/`except BaseException` of the
source catches either failure and returns `False`.  Note the source
appends the response driver to `response_drivers` before starting it, so
a `start()` failure leaves the constructed driver in the list. -/
def send_message (st : RPCState) (msg : CommMessage) (constructOk startOk : Bool) :
    Bool × RPCState × List Event :=
  if st.ocomm_closed then (false, st, [])
  else if msg.flag ≠ Flag.eof then
    -- with self.lock
    if (¬ st.comm_open) ∨ st.block_response then (false, st, [])
    else if ¬ constructOk then (false, st, [])
    else
      let rd := mkResponseDriver msg.response_address msg.request_id
      let st1 := { st with response_drivers := st.response_drivers ++ [rd] }
      if ¬ startOk then (false, st1, [Event.constructed msg.response_address msg.request_id])
      else
        let st2 := { st with response_drivers :=
                      st.response_drivers ++ [{ rd with running := true }] }
        let r := base_send_message st2
          (Sent.taggedRequest msg.response_address msg.request_id (msg.model.getD ""))
        (r.1, r.2.1,
          Event.constructed msg.response_address msg.request_id ::
          Event.started msg.response_address msg.request_id :: r.2.2)
  else base_send_message st Sent.eofSignal

/-- Modelled from the spec: `ConnectionDriver.send_eof` (not under
`src/`): send an EOF-flagged message through the driver's `send_message`
(which, on this subclass, is the override above). -/
def send_eof (st : RPCState) : Bool × RPCState × List Event :=
  send_message st { flag := Flag.eof, response_address := "", request_id := "",
                    commtype := "", model := none } true true

/-- `RPCRequestDriver.remove_model` (source lines 109-133): under the
lock, forward the reserved `YGG_CLIENT_EOF` sentinel tagged with the
model's name when an input model that is still a client signs off, remove
the model from the registry via the base class, and send the downstream
EOF when the registry has become empty.  Returns whether all models of
that direction have signed off. -/
def remove_model (st : RPCState) (d : Direction) (name : String) :
    Bool × RPCState × List Event :=
  let sentinel :=
    if d = Direction.input ∧ name ∈ st.models_input then
      let r := base_send_message st (Sent.clientEnd name)
      (r.2.1, r.2.2)
    else (st, ([] : List Event))
  let r1 := base_remove_model sentinel.1 d name
  if r1.1 then
    let r2 := send_eof r1.2
    (r1.1, r2.2.1, sentinel.2 ++ r2.2.2)
  else (r1.1, r1.2, sentinel.2)

/-- `RPCRequestDriver.on_eof` (source lines 135-152): under the lock,
remove the signing-off model; if no clients remain, defer to the base
class EOF handling (modelled from the spec: `ConnectionDriver.on_eof`
records the EOF and signals the loop to move toward CLOSING, emitting
nothing itself — the EOF flag is the value returned to the loop);
otherwise return an empty message so the loop keeps serving the remaining
clients. -/
def on_eof (st : RPCState) (msg : CommMessage) : RPCState × List Event × Flag :=
  let r := remove_model st Direction.input (msg.model.getD "")
  if r.2.1.models_input.card = 0 then (r.2.1, r.2.2, Flag.eof)
  else (r.2.1, r.2.2, Flag.empty)

/-- Whether `prune_response_drivers` removes a response driver: its thread
is no longer alive and both of its comms report their message confirmed. -/
def pruneEligible (rd : RespDriver) : Bool :=
  (¬ rd.running) ∧ rd.icomm_confirmed_recv ∧ rd.ocomm_confirmed_send

/-- `RPCRequestDriver.prune_response_drivers` (source lines 212-223):
under the lock, collect the indices of the eligible drivers and pop them
(in reverse index order), i.e. keep exactly the drivers that are not
eligible. -/
def prune_response_drivers (st : RPCState) : RPCState :=
  { st with response_drivers := st.response_drivers.filter fun rd => ¬ pruneEligible rd }

/-- `RPCRequestDriver.run_loop` (source lines 204-210), after the base
loop has returned: prune the response drivers unless the loop ended
abnormally (`was_break`, supplied by the base class, which is not under
`src/`). -/
def run_loop_post (st : RPCState) (was_break : Bool) : RPCState :=
  if was_break then st else prune_response_drivers st

/-- An EOF-flagged message as received from a client named `n` (only the
`model` header field is read on this path). -/
def eofFrom (n : String) : CommMessage :=
  { flag := Flag.eof, response_address := "", request_id := "", commtype := "",
    model := some n }

/-- Feed the driver one client-EOF receive per name, in order, collecting
the trace (the receive loop's successive `on_eof` calls). -/
def signOffRun (st : RPCState) : List String → RPCState × List Event
  | [] => (st, [])
  | n :: rest =>
    let r := on_eof st (eofFrom n)
    let r2 := signOffRun r.1 rest
    (r2.1, r.2.1 ++ r2.2)

/-- Number of downstream EOFs in a trace. -/
def countEof (evs : List Event) : Nat :=
  evs.countP fun e => decide (e = Event.transmitted Sent.eofSignal)

/-- A driver state with clients `A`, `B`, `C` signed on, comms open, and
nothing yet sent. -/
def stABC : RPCState :=
  { models_input := (["B", "A", "C"] : List String).toFinset
    models_output := (["srv"] : List String).toFinset
    response_drivers := []
    block_response := false
    comm_open := true
    ocomm_closed := false
    eof_sent := false }

/-- An open driver state with no clients and no response drivers. -/
def st0 : RPCState :=
  { models_input := ∅
    models_output := ∅
    response_drivers := []
    block_response := false
    comm_open := true
    ocomm_closed := false
    eof_sent := false }

/-- A concrete non-EOF request message. -/
def msg0 : CommMessage :=
  { flag := Flag.success, response_address := "addr1", request_id := "r1",
    commtype := "zmq", model := some "A" }

end RPCRequestDriver

/-!
## Theorems

Helper lemmas come first, then one theorem per claim (with its witness or
counterexample where required).
-/

namespace CisBaseType

/-- C3: for every object `o` that `check_decoded` accepts against the
typedef `d`, and for any codec whose subclass transforms obey the generic
contract (`transform_type` under `d` fixes objects, `decode_data` inverts
`encode_data`), `encode` returns a `(metadata, payload)` pair, `decode` of
that pair under `d` returns `o`, and `check_decoded` of the decoded result
against `d` is true. -/
theorem encode_decode_roundtrip {Obj : Type} (c : Codec Obj) (o : Obj) (d : Meta)
    (h1 : check_decoded c o (some d) = true)
    (hT : ∀ x, c.transform_type x (some d) = x)
    (hInv : ∀ x m, c.decode_data (c.encode_data x m) m = x) :
    ∃ md data, encode c o (some d) = Except.ok (md, data)
      ∧ decode c md data (some d) = Except.ok o
      ∧ check_decoded c o (some d) = true := by
  have h1' := h1
  unfold check_decoded at h1'
  cases hdd : c.encode_type o with
  | none => rw [hdd] at h1'; exact absurd h1' (by simp)
  | some dd =>
    rw [hdd] at h1'
    have h2 : check_encoded c (metaSet dd "typename" (PropVal.vstr c.name)) (some d) = true := h1'
    refine ⟨metaSet dd "typename" (PropVal.vstr c.name),
      c.encode_data o (metaSet dd "typename" (PropVal.vstr c.name)), ?_, ?_, h1⟩
    · simp [encode, h1, hT, hdd, h2]
    · simp [decode, h2, hInv, h1, hT]

/-- Witness for C3 at the unary nat codec, object `5`, typedef `dnat`. -/
theorem encode_decode_roundtrip_witness :
    (check_decoded natCodec 5 (some dnat) = true)
    ∧ (∃ md data, encode natCodec 5 (some dnat) = Except.ok (md, data)
        ∧ decode natCodec md data (some dnat) = Except.ok 5
        ∧ check_decoded natCodec 5 (some dnat) = true) :=
  ⟨by decide,
    encode_decode_roundtrip natCodec 5 dnat (by decide) (fun _ => rfl)
      (fun x m => by simp [natCodec])⟩

/-- C4: deserializing the zero-length byte string yields the codec's empty
sentinel object paired with the empty header mapping, for every codec
instance and typedef, without error (the decode path is never entered). -/
theorem deserialize_empty {Obj : Type} (c : Codec Obj) (td : Meta) :
    deserialize c td (PyMsg.bytes []) = Except.ok (c.empty_msg, ([] : Meta)) := rfl

/-- C5 (amended): encoding an object that fails `check_decoded` against
the given typedef always raises `ValueError` (not a `TypeError`) and
produces no payload. -/
theorem encode_invalid_valueError {Obj : Type} (c : Codec Obj) (o : Obj) (td : Option Meta)
    (h : check_decoded c o td = false) :
    encode c o td = Except.error Err.valueError := by
  simp [encode, h]

/-- Witness for the amended C5 at the nat codec and a mismatched typedef. -/
theorem encode_invalid_valueError_witness :
    check_decoded natCodec 5 (some dbad) = false
    ∧ encode natCodec 5 (some dbad) = Except.error Err.valueError :=
  ⟨by decide, encode_invalid_valueError natCodec 5 (some dbad) (by decide)⟩

/-- C5 counterexample: at the concrete invalid input the error raised is
`ValueError`, which is neither `TypeError` nor the source's
`CisTypeError`, so the claim that a failing `check_decoded` makes `encode`
raise a type error is false as stated. -/
theorem encode_invalid_not_typeError :
    check_decoded natCodec 5 (some dbad) = false
    ∧ encode natCodec 5 (some dbad) = Except.error Err.valueError
    ∧ Err.valueError ≠ Err.typeError
    ∧ Err.valueError ≠ Err.cisTypeError := by decide

/-- C10: `deserialize` rejects non-bytes input with `TypeError` and
rejects non-empty byte strings lacking the separator with `ValueError`; in
both cases it returns an error, so no object is decoded and no partial
result escapes. -/
theorem deserialize_fail_fast {Obj : Type} (c : Codec Obj) (td : Meta) :
    deserialize c td PyMsg.notBytes = Except.error Err.typeError
    ∧ ∀ msg : List Char, msg ≠ [] → splitFirst sep msg = none →
        deserialize c td (PyMsg.bytes msg) = Except.error Err.valueError := by
  refine ⟨rfl, ?_⟩
  intro msg hne hnone
  cases msg with
  | nil => exact absurd rfl hne
  | cons a rest => simp [deserialize, hnone]

/-- Witness for C10 at the nat codec, non-bytes input and `b"a"`. -/
theorem deserialize_fail_fast_witness :
    deserialize natCodec dnat PyMsg.notBytes = Except.error Err.typeError
    ∧ deserialize natCodec dnat (PyMsg.bytes ['a']) = Except.error Err.valueError :=
  ⟨(deserialize_fail_fast natCodec dnat).1,
    (deserialize_fail_fast natCodec dnat).2 ['a'] (by decide) (by decide)⟩

end CisBaseType

namespace CisBaseType

theorem lastOpt_cons_ne (c : Char) (l : List Char) (h : l ≠ []) :
    lastOpt (c :: l) = lastOpt l := by
  cases l with
  | nil => exact absurd rfl h
  | cons b rest => rfl

theorem lastOpt_append_single (l : List Char) (a : Char) :
    lastOpt (l ++ [a]) = some a := by
  induction l with
  | nil => rfl
  | cons c rest ih => rw [List.cons_append, lastOpt_cons_ne _ _ (by simp), ih]

theorem lastOpt_some_of_ne (l : List Char) (h : l ≠ []) : ∃ a, lastOpt l = some a := by
  induction l with
  | nil => exact absurd rfl h
  | cons c rest ih =>
    cases rest with
    | nil => exact ⟨c, rfl⟩
    | cons b bs =>
      obtain ⟨a, ha⟩ := ih (by simp)
      exact ⟨a, by rw [lastOpt_cons_ne c (b :: bs) (by simp)]; exact ha⟩

theorem leadsWith_append (s t : List Char) : leadsWith s (s ++ t) = true := by
  induction s with
  | nil => rfl
  | cons a as ih => simp [leadsWith, ih]

theorem leadsWith_left (s h r : List Char) (hle : s.length ≤ h.length)
    (hpre : leadsWith s (h ++ r) = true) : leadsWith s h = true := by
  induction h generalizing s with
  | nil =>
    cases s with
    | nil => rfl
    | cons a as => simp at hle
  | cons c h' ih =>
    cases s with
    | nil => rfl
    | cons a as =>
      rw [List.cons_append] at hpre
      unfold leadsWith at hpre ⊢
      by_cases hac : a = c
      · rw [if_pos hac] at hpre ⊢
        exact ih as (by simpa using hle) hpre
      · rw [if_neg hac] at hpre
        exact absurd hpre (by simp)

theorem leadsWith_rev (s h r : List Char) (hle : h.length ≤ s.length)
    (hpre : leadsWith s (h ++ r) = true) : leadsWith h s = true := by
  induction h generalizing s r with
  | nil => rfl
  | cons c h' ih =>
    cases s with
    | nil => simp at hle
    | cons a as =>
      rw [List.cons_append] at hpre
      unfold leadsWith at hpre ⊢
      by_cases hac : a = c
      · rw [if_pos hac] at hpre
        rw [if_pos hac.symm]
        exact ih as r (by simpa using hle) hpre
      · rw [if_neg hac] at hpre
        exact absurd hpre (by simp)

theorem leadsWith_lastOpt_mem (h s : List Char) (a : Char)
    (hpre : leadsWith h s = true) (hla : lastOpt h = some a) : a ∈ s := by
  induction h generalizing s with
  | nil => simp [lastOpt] at hla
  | cons c h' ih =>
    cases s with
    | nil => simp [leadsWith] at hpre
    | cons b bs =>
      unfold leadsWith at hpre
      by_cases hcb : c = b
      · rw [if_pos hcb] at hpre
        cases h' with
        | nil =>
          simp [lastOpt] at hla
          subst hla
          exact hcb ▸ List.mem_cons_self b bs
        | cons d h'' =>
          rw [lastOpt_cons_ne c (d :: h'') (by simp)] at hla
          exact List.mem_cons_of_mem b (ih bs hpre hla)
      · rw [if_neg hcb] at hpre
        exact absurd hpre (by simp)

theorem splitFirst_none_not_leads (sp h : List Char) (hn : splitFirst sp h = none) :
    leadsWith sp h = false := by
  cases h with
  | nil =>
    cases sp with
    | nil => simp [splitFirst] at hn
    | cons a as => rfl
  | cons c rest =>
    unfold splitFirst at hn
    cases hlv : leadsWith sp (c :: rest) with
    | true => rw [hlv] at hn; simp at hn
    | false => rfl

theorem splitFirst_none_tail (sp : List Char) (c : Char) (rest : List Char)
    (hn : splitFirst sp (c :: rest) = none) : splitFirst sp rest = none := by
  unfold splitFirst at hn
  cases hlv : leadsWith sp (c :: rest) with
  | true => rw [hlv] at hn; simp at hn
  | false =>
    rw [hlv] at hn
    simp only [Bool.false_eq_true, if_false, Option.map_eq_none'] at hn
    exact hn

theorem splitFirst_boundary (sp : List Char) (hsp : sp ≠ []) (h p : List Char)
    (hnone : splitFirst sp h = none)
    (hlast : ∀ a, lastOpt h = some a → a ∉ sp) :
    splitFirst sp (h ++ sp ++ p) = some (h, p) := by
  induction h with
  | nil =>
    cases sp with
    | nil => exact absurd rfl hsp
    | cons s ss =>
      show splitFirst (s :: ss) ((s :: ss) ++ p) = some ([], p)
      rw [List.cons_append]
      unfold splitFirst
      rw [← List.cons_append, if_pos]
      · rw [List.drop_left]
      · rw [leadsWith_append]
  | cons c h' ih =>
    have hne : leadsWith sp ((c :: h') ++ sp ++ p) = false := by
      cases hlv : leadsWith sp ((c :: h') ++ sp ++ p) with
      | false => rfl
      | true =>
        exfalso
        rw [List.append_assoc] at hlv
        by_cases hlen : sp.length ≤ (c :: h').length
        · have hl : leadsWith sp (c :: h') = true := leadsWith_left sp (c :: h') (sp ++ p) hlen hlv
          have := splitFirst_none_not_leads sp (c :: h') hnone
          rw [hl] at this
          exact Bool.true_eq_false.mp this
        · push_neg at hlen
          have hrv : leadsWith (c :: h') sp = true :=
            leadsWith_rev sp (c :: h') (sp ++ p) (Nat.le_of_lt hlen) hlv
          obtain ⟨a, ha⟩ := lastOpt_some_of_ne (c :: h') (by simp)
          exact hlast a ha (leadsWith_lastOpt_mem (c :: h') sp a hrv ha)
    have hstep : (c :: h') ++ sp ++ p = c :: (h' ++ sp ++ p) := by simp
    rw [hstep]
    unfold splitFirst
    rw [if_neg (by rw [← hstep, hne]; simp)]
    rw [ih (splitFirst_none_tail sp c h' hnone) ?tail]
    · rfl
    case tail =>
      intro a ha
      apply hlast a
      have : h' ≠ [] := by
        intro hc
        rw [hc] at ha
        simp [lastOpt] at ha
      rw [lastOpt_cons_ne c h' this]
      exact ha

theorem lastOpt_cons_append_single (c : Char) (l : List Char) (a : Char) :
    lastOpt (c :: (l ++ [a])) = some a := by
  rw [lastOpt_cons_ne c (l ++ [a]) (by simp), lastOpt_append_single]

theorem lastOpt_jsonDumps (m : Meta) : lastOpt (jsonDumps m) = some (Char.ofNat 125) := by
  unfold jsonDumps
  exact lastOpt_cons_append_single _ _ _

/-- C7 (amended): for every header mapping whose serialized JSON does not
contain the separator token, the envelope built by `serialize` splits at
the first separator occurrence into exactly the header JSON and the
payload bytes (the fixed separator contains no closing brace, and the
serialized header always ends in one). -/
theorem serialize_split_recovers {Obj : Type} (c : Codec Obj) (td kwargs : Meta)
    (obj : Obj) (md : Meta) (data : List Char)
    (henc : encode c obj (some td) = Except.ok (md, data))
    (hsep : splitFirst sep (jsonDumps (metaUpdate md kwargs)) = none) :
    serialize c td kwargs obj = Except.ok (jsonDumps (metaUpdate md kwargs) ++ sep ++ data)
    ∧ splitFirst sep (jsonDumps (metaUpdate md kwargs) ++ sep ++ data)
        = some (jsonDumps (metaUpdate md kwargs), data) := by
  constructor
  · unfold serialize
    rw [henc]
  · refine splitFirst_boundary sep (by decide) _ data hsep ?_
    intro a ha
    rw [lastOpt_jsonDumps] at ha
    have h125 : Char.ofNat 125 = a := by injection ha
    subst h125
    decide

/-- Witness for the amended C7: the nat codec's envelope for object `5`
with no extra header entries splits back into its header and payload. -/
theorem serialize_split_recovers_witness :
    serialize natCodec dnat [] 5
      = Except.ok (jsonDumps (metaUpdate dnat []) ++ sep ++ List.replicate 5 'x')
    ∧ splitFirst sep (jsonDumps (metaUpdate dnat []) ++ sep ++ List.replicate 5 'x')
        = some (jsonDumps (metaUpdate dnat []), List.replicate 5 'x') :=
  serialize_split_recovers natCodec dnat [] 5 dnat (List.replicate 5 'x')
    (by decide) (by decide)

/-- C7 counterexample: a header mapping carrying the string
`":CIS_TAG:"` is accepted by `serialize`, the separator occurs unescaped
inside the serialized header, and splitting the envelope at the first
separator occurrence does not recover the header and payload. -/
theorem serialize_sep_in_header :
    serialize natCodec dnat kwTag 5 = Except.ok (hdrTag ++ sep ++ List.replicate 5 'x')
    ∧ splitFirst sep hdrTag ≠ none
    ∧ splitFirst sep (hdrTag ++ sep ++ List.replicate 5 'x')
        ≠ some (hdrTag, List.replicate 5 'x') := by decide

end CisBaseType

namespace RPCRequestDriver

/-- C8: a prune pass keeps a response driver exactly when it is not
eligible — i.e. it removes exactly the drivers that are no longer running
and whose two comms confirm their message; a running or unconfirmed
driver survives every pass; and the pass after the loop is skipped
exactly when the loop ended abnormally (`was_break`). -/
theorem prune_removes_exactly_eligible (st : RPCState) :
    (∀ rd : RespDriver,
        rd ∈ (prune_response_drivers st).response_drivers
          ↔ (rd ∈ st.response_drivers ∧ ¬ pruneEligible rd))
    ∧ run_loop_post st true = st
    ∧ run_loop_post st false = prune_response_drivers st := by
  refine ⟨?_, rfl, rfl⟩
  intro rd
  simp [prune_response_drivers, List.mem_filter]

/-- C1: on a non-EOF message, any message that `send_message` hands to
the base pump's send is the request tagged with the message's
`(response_address, request_id)` pair (and model name), and the `started`
event of the response driver bound to that pair strictly precedes it in
the trace: no tagged request is transmitted without its reply route
running. -/
theorem response_started_before_send (st : RPCState) (msg : CommMessage)
    (constructOk startOk : Bool) (hflag : msg.flag ≠ Flag.eof)
    (i : Nat) (s : Sent)
    (hi : (send_message st msg constructOk startOk).2.2.get? i = some (Event.transmitted s)) :
    s = Sent.taggedRequest msg.response_address msg.request_id (msg.model.getD "")
    ∧ ∃ j, j < i ∧ (send_message st msg constructOk startOk).2.2.get? j
        = some (Event.started msg.response_address msg.request_id) := by
  by_cases h1 : st.ocomm_closed = true
  · simp [send_message, h1] at hi
  · by_cases hco : st.comm_open = true
    · by_cases hbr : st.block_response = true
      · simp [send_message, h1, hco, hbr, hflag] at hi
      · by_cases h3 : constructOk = true
        · by_cases h4 : startOk = true
          · simp [send_message, base_send_message, h1, hco, hbr, h3, h4, hflag] at hi ⊢
            rcases i with _ | _ | _ | n
            · simp at hi
            · simp at hi
            · simp at hi
              exact ⟨hi.symm, 1, by omega, by simp⟩
            · simp at hi
          · rw [Bool.not_eq_true] at h4
            simp [send_message, h1, hco, hbr, h3, h4, hflag] at hi
            rcases i with _ | n
            · simp at hi
            · simp at hi
        · rw [Bool.not_eq_true] at h3
          simp [send_message, h1, hco, hbr, h3, hflag] at hi
    · simp [send_message, h1, hco, hflag] at hi

/-- Witness for C1: a concrete successful send; the transmitted event sits
at index 2 and the `started` event precedes it at index 1. -/
theorem response_started_before_send_witness :
    (Sent.taggedRequest "addr1" "r1" "A"
        = Sent.taggedRequest msg0.response_address msg0.request_id (msg0.model.getD ""))
    ∧ (∃ j, j < 2 ∧ (send_message st0 msg0 true true).2.2.get? j
        = some (Event.started msg0.response_address msg0.request_id)) :=
  response_started_before_send st0 msg0 true true (by decide) 2
    (Sent.taggedRequest "addr1" "r1" "A") (by decide)

/-- C6 (amended): when construction or start of the response driver
raises, `send_message` reports failure, hands nothing to the base pump's
send (the trace holds no transmitted message), and the loop state is
untouched; a constructor failure leaves the driver state unchanged, while
a `start()` failure leaves the constructed, never-started response driver
in `response_drivers` (the source appends before starting), to be
reclaimed by pruning or shutdown. -/
theorem send_message_failure (st : RPCState) (msg : CommMessage)
    (constructOk startOk : Bool) (hflag : msg.flag ≠ Flag.eof)
    (ho : st.ocomm_closed = false) (hco : st.comm_open = true)
    (hbr : st.block_response = false)
    (hfail : constructOk = false ∨ startOk = false) :
    (send_message st msg constructOk startOk).1 = false
    ∧ (∀ s, Event.transmitted s ∉ (send_message st msg constructOk startOk).2.2)
    ∧ (constructOk = false → (send_message st msg constructOk startOk).2.1 = st)
    ∧ (constructOk = true → (send_message st msg constructOk startOk).2.1
        = { st with response_drivers := st.response_drivers
            ++ [mkResponseDriver msg.response_address msg.request_id] }) := by
  rcases hfail with hc | hs
  · subst hc
    simp [send_message, ho, hco, hbr, hflag]
  · subst hs
    by_cases hc : constructOk
    · subst hc
      simp [send_message, ho, hco, hbr, hflag]
    · simp only [Bool.not_eq_true] at hc
      subst hc
      simp [send_message, ho, hco, hbr, hflag]

/-- Witness for the amended C6 at a concrete state where `start()`
raises. -/
theorem send_message_failure_witness :
    (send_message st0 msg0 true false).1 = false
    ∧ (∀ s, Event.transmitted s ∉ (send_message st0 msg0 true false).2.2)
    ∧ (true = false → (send_message st0 msg0 true false).2.1 = st0)
    ∧ (true = true → (send_message st0 msg0 true false).2.1
        = { st0 with response_drivers := st0.response_drivers
            ++ [mkResponseDriver msg0.response_address msg0.request_id] }) :=
  send_message_failure st0 msg0 true false (by decide) rfl rfl rfl (Or.inr rfl)

/-- C6 counterexample: at a concrete open state, when `start()` raises,
`send_message` returns failure and transmits nothing, but the constructed,
never-started response driver remains tracked in `response_drivers`
(it grew from empty), so "no orphaned reply route remains" is false as
stated. -/
theorem send_message_start_failure_orphan :
    (send_message st0 msg0 true false).1 = false
    ∧ (send_message st0 msg0 true false).2.2 = [Event.constructed "addr1" "r1"]
    ∧ (send_message st0 msg0 true false).2.1.response_drivers
        = [mkResponseDriver "addr1" "r1"]
    ∧ (mkResponseDriver "addr1" "r1").running = false
    ∧ st0.response_drivers = [] := by
  refine ⟨rfl, rfl, rfl, rfl, rfl⟩

end RPCRequestDriver

namespace RPCRequestDriver

theorem base_send_clientEnd_state (st : RPCState) (n : String) :
    (base_send_message st (Sent.clientEnd n)).2.1 = st := by
  by_cases h : st.ocomm_closed = true
  · simp [base_send_message, h]
  · simp [base_send_message, h]

theorem send_message_registry_preserved (st : RPCState) (msg : CommMessage)
    (cOk sOk : Bool) (d : Direction) :
    registry (send_message st msg cOk sOk).2.1 d = registry st d := by
  simp only [send_message, base_send_message]
  split_ifs <;> cases d <;> rfl

theorem send_eof_registry (st : RPCState) (d : Direction) :
    registry (send_eof st).2.1 d = registry st d :=
  send_message_registry_preserved st _ true true d

theorem send_eof_models_input (st : RPCState) :
    (send_eof st).2.1.models_input = st.models_input :=
  send_eof_registry st Direction.input

theorem send_eof_models_output (st : RPCState) :
    (send_eof st).2.1.models_output = st.models_output :=
  send_eof_registry st Direction.output

theorem send_eof_post (st : RPCState) :
    send_eof (send_eof st).2.1 = (false, (send_eof st).2.1, []) := by
  by_cases h1 : st.ocomm_closed = true
  · simp [send_eof, send_message, h1]
  · by_cases h2 : st.eof_sent = true
    · simp [send_eof, send_message, base_send_message, h1, h2]
    · simp [send_eof, send_message, base_send_message, h1, h2]

theorem remove_model_basic (st : RPCState) (d : Direction) (name : String) :
    registry (remove_model st d name).2.1 d = (registry st d).erase name
    ∧ (remove_model st d name).1 = decide ((registry st d).erase name = ∅)
    ∧ ((remove_model st d name).1 = true →
        send_eof (remove_model st d name).2.1
          = (false, (remove_model st d name).2.1, [])) := by
  cases d with
  | input =>
    by_cases hn : name ∈ st.models_input
    · by_cases hout : st.models_input.erase name = ∅
      · refine ⟨?_, ?_, ?_⟩
        · simp [remove_model, base_remove_model, base_send_clientEnd_state, registry,
            hn, hout, send_eof_models_input]
        · simp [remove_model, base_remove_model, base_send_clientEnd_state, registry,
            hn, hout]
        · intro _
          simp [remove_model, base_remove_model, base_send_clientEnd_state, registry,
            hn, hout]
          exact send_eof_post _
      · refine ⟨?_, ?_, ?_⟩
        · simp [remove_model, base_remove_model, base_send_clientEnd_state, registry,
            hn, hout]
        · simp [remove_model, base_remove_model, base_send_clientEnd_state, registry,
            hn, hout]
        · intro hc
          simp [remove_model, base_remove_model, base_send_clientEnd_state, registry,
            hn, hout] at hc
    · simp only [registry, Finset.erase_eq_of_not_mem hn]
      by_cases hout : st.models_input = ∅
      · refine ⟨?_, ?_, ?_⟩
        · simp [remove_model, base_remove_model, registry, hn, hout, send_eof_models_input]
        · simp [remove_model, base_remove_model, registry, hn, hout]
        · intro _
          simp [remove_model, base_remove_model, registry, hn, hout]
          exact send_eof_post _
      · refine ⟨?_, ?_, ?_⟩
        · simp [remove_model, base_remove_model, registry, hn, hout]
        · simp [remove_model, base_remove_model, registry, hn, hout]
        · intro hc
          simp [remove_model, base_remove_model, registry, hn, hout] at hc
  | output =>
    by_cases hout : st.models_output.erase name = ∅
    · refine ⟨?_, ?_, ?_⟩
      · simp [remove_model, base_remove_model, registry, hout, send_eof_models_output]
      · simp [remove_model, base_remove_model, registry, hout]
      · intro _
        simp [remove_model, base_remove_model, registry, hout]
        exact send_eof_post _
    · refine ⟨?_, ?_, ?_⟩
      · simp [remove_model, base_remove_model, registry, hout]
      · simp [remove_model, base_remove_model, registry, hout]
      · intro hc
        simp [remove_model, base_remove_model, registry, hout] at hc

end RPCRequestDriver

namespace RPCRequestDriver

/-- C9: `remove_model` is idempotent.  After any call, a further call for
the same direction with the same name — or any name no longer in that
direction's registry — returns whether the registry is empty, leaves the
driver state unchanged, and emits nothing: no sentinel is re-sent and no
additional downstream EOF is produced.  Each call returns whether that
direction's registry is now empty. -/
theorem remove_model_idem (st : RPCState) (d : Direction) (name name' : String)
    (h2 : name' ∉ registry (remove_model st d name).2.1 d) :
    remove_model (remove_model st d name).2.1 d name'
      = (decide (registry (remove_model st d name).2.1 d = ∅),
         (remove_model st d name).2.1, [])
    ∧ (remove_model st d name).1
      = decide (registry (remove_model st d name).2.1 d = ∅) := by
  obtain ⟨hreg, hout, heof⟩ := remove_model_basic st d name
  generalize hst1 : (remove_model st d name).2.1 = st1 at h2 hreg heof ⊢
  constructor
  case right =>
    rw [hout, hreg]
  case left =>
    have hfst : registry st1 d = ∅ → send_eof st1 = (false, st1, []) := by
      intro hempty
      apply heof
      rw [hout]
      rw [hreg] at hempty
      simp [hempty]
    cases d with
    | input =>
      have h2' : name' ∉ st1.models_input := h2
      by_cases hempty : st1.models_input = ∅
      · have heq := hfst hempty
        simp [remove_model, base_remove_model, registry, h2', heq]
      · simp [remove_model, base_remove_model, registry, h2', hempty]
    | output =>
      have h2' : name' ∉ st1.models_output := h2
      by_cases hempty : st1.models_output = ∅
      · have heq := hfst hempty
        simp [remove_model, base_remove_model, registry, h2', heq]
      · simp [remove_model, base_remove_model, registry, h2', hempty]

/-- Witness for C9: signing off client `B` twice on the three-client
driver; the second call returns `false` (two clients remain), keeps the
state, and emits nothing. -/
theorem remove_model_idem_witness :
    remove_model (remove_model stABC Direction.input "B").2.1 Direction.input "B"
      = (decide (registry (remove_model stABC Direction.input "B").2.1 Direction.input = ∅),
         (remove_model stABC Direction.input "B").2.1, [])
    ∧ (remove_model stABC Direction.input "B").1
      = decide (registry (remove_model stABC Direction.input "B").2.1 Direction.input = ∅) :=
  remove_model_idem stABC Direction.input "B" "B" (by decide)

theorem countEof_append (a b : List Event) :
    countEof (a ++ b) = countEof a + countEof b := by
  simp [countEof, List.countP_append]

theorem toFinset_eq_empty (l : List String) : l.toFinset = ∅ ↔ l = [] := by
  cases l with
  | nil => simp
  | cons a as => simp [Finset.insert_ne_empty]

theorem on_eof_step (st : RPCState) (n : String)
    (hn : n ∈ st.models_input) (he : st.eof_sent = false) (ho : st.ocomm_closed = false) :
    ((on_eof st (eofFrom n)).1.models_input = st.models_input.erase n)
    ∧ ((on_eof st (eofFrom n)).1.ocomm_closed = false)
    ∧ (st.models_input.erase n = ∅ →
        (on_eof st (eofFrom n)).1.eof_sent = true ∧ countEof (on_eof st (eofFrom n)).2.1 = 1)
    ∧ (st.models_input.erase n ≠ ∅ →
        (on_eof st (eofFrom n)).1.eof_sent = false ∧ countEof (on_eof st (eofFrom n)).2.1 = 0) := by
  by_cases hout : st.models_input.erase n = ∅
  · simp [on_eof, remove_model, base_remove_model, base_send_message, send_eof,
      send_message, eofFrom, countEof, registry, hn, he, ho, hout]
  · have hc : ¬ (st.models_input.card - 1 = 0) := by
      intro hc0
      apply hout
      have hce := Finset.card_erase_of_mem hn
      rw [← hce] at hc0
      exact Finset.card_eq_zero.mp hc0
    simp [on_eof, remove_model, base_remove_model, base_send_message, send_eof,
      send_message, eofFrom, countEof, registry, hn, he, ho, hout, hc]

end RPCRequestDriver

namespace RPCRequestDriver

theorem signOffRun_prefix (p : List String) :
    ∀ (q : List String) (st : RPCState), (p ++ q).Nodup →
      st.models_input = (p ++ q).toFinset →
      st.eof_sent = false → st.ocomm_closed = false →
      ((signOffRun st p).1.models_input = q.toFinset
        ∧ (signOffRun st p).1.ocomm_closed = false
        ∧ (q = [] → p ≠ [] →
            countEof (signOffRun st p).2 = 1 ∧ (signOffRun st p).1.eof_sent = true)
        ∧ (q ≠ [] →
            countEof (signOffRun st p).2 = 0 ∧ (signOffRun st p).1.eof_sent = false)) := by
  induction p with
  | nil =>
    intro q st hnd hcl he ho
    refine ⟨hcl, ho, ?_, ?_⟩
    · intro _ hp
      exact absurd rfl hp
    · intro _
      exact ⟨rfl, he⟩
  | cons n p' ih =>
    intro q st hnd hcl he ho
    rw [List.cons_append] at hnd hcl
    have hn : n ∈ st.models_input := by
      rw [hcl]
      simp
    obtain ⟨hreg, hoc, hsp1, hsp2⟩ := on_eof_step st n hn he ho
    have hnmem : n ∉ p' ++ q := (List.nodup_cons.mp hnd).1
    have herase : st.models_input.erase n = (p' ++ q).toFinset := by
      rw [hcl, List.toFinset_cons]
      apply Finset.erase_insert
      simpa using hnmem
    by_cases hq0 : p' ++ q = []
    · obtain ⟨hp', hq⟩ := List.append_eq_nil.mp hq0
      subst hp'
      subst hq
      have hempty : st.models_input.erase n = ∅ := by
        rw [herase]
        rfl
      obtain ⟨hef, hcnt⟩ := hsp1 hempty
      refine ⟨?_, ?_, ?_, ?_⟩
      · simp only [signOffRun]
        rw [hreg, hempty]
        rfl
      · simp only [signOffRun]
        exact hoc
      · intro _ _
        constructor
        · simp only [signOffRun]
          simpa [countEof] using hcnt
        · simp only [signOffRun]
          exact hef
      · intro hq
        exact absurd rfl hq
    · have hne' : st.models_input.erase n ≠ ∅ := by
        rw [herase]
        intro hc
        exact hq0 ((toFinset_eq_empty (p' ++ q)).mp hc)
      obtain ⟨hef, hcnt⟩ := hsp2 hne'
      have hmodels : (on_eof st (eofFrom n)).1.models_input = (p' ++ q).toFinset := by
        rw [hreg, herase]
      have hnd' : (p' ++ q).Nodup := (List.nodup_cons.mp hnd).2
      obtain ⟨ih1, ih2, ih3, ih4⟩ := ih q (on_eof st (eofFrom n)).1 hnd' hmodels hef hoc
      refine ⟨?_, ?_, ?_, ?_⟩
      · simp only [signOffRun]
        exact ih1
      · simp only [signOffRun]
        exact ih2
      · intro hq hp
        subst hq
        have hp' : p' ≠ [] := by simpa using hq0
        obtain ⟨ihc, ihe⟩ := ih3 rfl hp'
        constructor
        · simp only [signOffRun]
          rw [countEof_append, hcnt, ihc]
        · simp only [signOffRun]
          exact ihe
      · intro hq
        obtain ⟨ihc, ihe⟩ := ih4 hq
        constructor
        · simp only [signOffRun]
          rw [countEof_append, hcnt, ihc]
        · simp only [signOffRun]
          exact ihe

/-- C2: over any complete sign-off order of a driver's distinct clients,
exactly one downstream EOF is emitted, and only at the last sign-off: no
proper prefix of the order emits any downstream EOF, and each sign-off
strictly shrinks the Client Set. -/
theorem client_signoff_eof_once (order : List String) (st : RPCState)
    (hnd : order.Nodup) (hne : order ≠ [])
    (hcl : st.models_input = order.toFinset)
    (he : st.eof_sent = false) (ho : st.ocomm_closed = false) :
    countEof (signOffRun st order).2 = 1
    ∧ (∀ p q, order = p ++ q → q ≠ [] → countEof (signOffRun st p).2 = 0)
    ∧ (∀ p n q, order = p ++ n :: q →
        (signOffRun st (p ++ [n])).1.models_input.card
          < (signOffRun st p).1.models_input.card) := by
  refine ⟨?_, ?_, ?_⟩
  · have h := signOffRun_prefix order [] st (by simpa using hnd) (by simpa using hcl) he ho
    exact (h.2.2.1 rfl hne).1
  · intro p q hpq hq
    subst hpq
    have h := signOffRun_prefix p q st hnd hcl he ho
    exact (h.2.2.2 hq).1
  · intro p n q hpq
    subst hpq
    have h1 := signOffRun_prefix p (n :: q) st hnd hcl he ho
    have h2 := signOffRun_prefix (p ++ [n]) q st
      (by simpa [List.append_assoc] using hnd) (by simpa [List.append_assoc] using hcl) he ho
    rw [h1.1, h2.1]
    have hqnd : (n :: q).Nodup := (List.nodup_append.mp hnd).2.1
    rw [List.toFinset_card_of_nodup hqnd,
      List.toFinset_card_of_nodup (List.nodup_cons.mp hqnd).2]
    simp

/-- Witness for C2 at clients `{A, B, C}` with sign-off order `B, A, C`:
one EOF over the whole order, none after the proper prefix `B, A`, and the
first sign-off strictly shrinks the Client Set. -/
theorem client_signoff_eof_once_witness :
    countEof (signOffRun stABC ["B", "A", "C"]).2 = 1
    ∧ countEof (signOffRun stABC ["B", "A"]).2 = 0
    ∧ (signOffRun stABC ([] ++ ["B"])).1.models_input.card
        < (signOffRun stABC []).1.models_input.card :=
  ⟨(client_signoff_eof_once ["B", "A", "C"] stABC (by decide) (by decide) rfl rfl rfl).1,
   (client_signoff_eof_once ["B", "A", "C"] stABC (by decide) (by decide) rfl rfl rfl).2.1
     ["B", "A"] ["C"] rfl (by decide),
   (client_signoff_eof_once ["B", "A", "C"] stABC (by decide) (by decide) rfl rfl rfl).2.2
     [] "B" ["A", "C"] rfl⟩

end RPCRequestDriver
